import Mathlib

/-!
# Verification of the FileServerApp download engine

Shallow embedding of `src/src-tauri/src/main.rs` (the Tauri backend of
FileServerApp).  The embedding models:

* the cancellation registry (`download_tracker` module: `add_download`,
  `cancel_download`, `remove_download`) as an association list of
  `(download id, one-shot handle)` pairs plus the set of signaled handles;
* the auth-token selection of `download_file` (lines 102-110);
* the save-path resolution of `download_file` (lines 169-180);
* the per-chunk telemetry of the transfer loop (lines 225-268): the
  detailed (speed / ETA) event and the coarse percentage event;
* the transfer loop itself (lines 198-286) as a function over an explicit
  schedule of loop iterations, each carrying the observation made on the
  cancellation channel, the wall-clock time in milliseconds and the stream
  event of that iteration;
* the whole `download_file` command (lines 87-293) as a function over an
  environment recording the outcome of every fallible external step
  (URL parse, header-value parse, client build, HEAD request, the sequence
  of GET requests, downloads-directory lookup, directory creation, file
  creation) threaded through the registry state.

Modelling conventions: machine `u64` values are `Nat`, except that the
one `u64` subtraction that can underflow (`total_size - downloaded` at
line 236) is modelled with an explicit wrap modulo `2^64` (`sub64`).  The
source's `f64` arithmetic is modelled exactly: every `f64` value that
occurs is a nonnegative rational, represented as a numerator/denominator
pair (`Frac`), and every `f64` operation (u64-to-f64 conversion,
division, the multiplication by `100.0`, the addition inside
`Duration::as_secs_f64`) is the corresponding exact rational operation
followed by IEEE-754 round-to-nearest-even to a 53-bit significand
(`roundF64`, with unbounded exponent: no value here comes near the
binary64 overflow or subnormal ranges); `as u64` on a nonnegative `f64`
is truncation (`Frac.trunc`).  In particular the percentage
`(downloaded as f64 / total_size as f64 * 100.0) as u64` (lines 244 and
261) is `percentF64`, which can differ from the exact floor
`downloaded * 100 / total` (e.g. 28 versus 29 at 29 of 100 bytes), and
the speed `(bytes as f64 / elapsed_secs) as u64` (line 232) is
`speedF64`.  Wall-clock time is a `Nat` count of milliseconds since the
transfer started (`Instant::now()` at line 193 is time 0);
`Duration::as_millis` (line 227) is then exact, and
`Duration::as_secs_f64` (line 228) is `elapsedSecsF64`.  Fallible steps
are `Option` / `Except`; event emission (`app_handle.emit`) is modelled
as appending to the event list (its failure paths are not exercised by
any claim).
-/

set_option maxRecDepth 100000

/-- Fuelled floor-log2: `log2h fuel n` halves `n` until it drops below 2,
consuming one unit of fuel per step. -/
def log2h : Nat → Nat → Nat
  | 0, _ => 0
  | fuel + 1, n => if 2 ≤ n then log2h fuel (n / 2) + 1 else 0

/-- Floor of the base-2 logarithm of a positive natural (0 at 0); `n`
itself is always sufficient fuel since `n < 2^n`. -/
def natLog2 (n : Nat) : Nat := log2h n n

/-- A nonnegative rational as an unreduced numerator/denominator pair.
Every `f64` value occurring in the source is nonnegative and is
represented exactly by such a pair. -/
structure Frac where
  n : Nat
  d : Nat
deriving Repr, DecidableEq

/-- Exact quotient of two pairs. -/
def Frac.div (a b : Frac) : Frac := ⟨a.n * b.d, a.d * b.n⟩

/-- Exact sum of two pairs. -/
def Frac.add (a b : Frac) : Frac := ⟨a.n * b.d + b.n * a.d, a.d * b.d⟩

/-- Exact product with a natural (used for the exactly representable
`100.0`). -/
def Frac.mulNat (a : Frac) (k : Nat) : Frac := ⟨a.n * k, a.d⟩

/-- Exact multiplication by an integer power of two. -/
def Frac.scale (a : Frac) (k : Int) : Frac :=
  if 0 ≤ k then ⟨a.n * 2 ^ k.toNat, a.d⟩ else ⟨a.n, a.d * 2 ^ (-k).toNat⟩

/-- Truncation toward zero to a natural — the behaviour of `as u64` on a
nonnegative in-range `f64`. -/
def Frac.trunc (a : Frac) : Nat := a.n / a.d

/-- Round a nonnegative pair to the nearest integer, ties to even. -/
def rndFrac (a : Frac) : Nat :=
  if 2 * (a.n % a.d) < a.d then a.n / a.d
  else if a.d < 2 * (a.n % a.d) then a.n / a.d + 1
  else if (a.n / a.d) % 2 = 0 then a.n / a.d else a.n / a.d + 1

/-- The binary exponent of a positive pair: the `e` with
`2^e ≤ n/d < 2^(e+1)`, computed from integer logarithms. -/
def eExp (a : Frac) : Int :=
  (natLog2 (a.n * 2 ^ (natLog2 a.d + 64) / a.d) : Int) - (natLog2 a.d + 64)

/-- IEEE-754 binary64 round-to-nearest-even of a nonnegative rational
(unbounded exponent): scale into `[2^52, 2^53)`, round the significand
with ties to even, and scale back. -/
def roundF64 (a : Frac) : Frac :=
  if a.n = 0 then ⟨0, 1⟩
  else
    let e := eExp a
    Frac.scale ⟨rndFrac (a.scale (52 - e)), 1⟩ (e - 52)

/-- `u64 as f64`: exact for values below `2^53`, rounded above. -/
def f64ofNat (k : Nat) : Frac := roundF64 ⟨k, 1⟩

/-- `f64` division: round the exact quotient. -/
def f64div (a b : Frac) : Frac := roundF64 (a.div b)

/-- `f64` multiplication by `100.0`: round the exact product. -/
def f64mul100 (a : Frac) : Frac := roundF64 (a.mulNat 100)

/-- `f64` addition: round the exact sum. -/
def f64add (a b : Frac) : Frac := roundF64 (a.add b)

/-- The percentage computation of lines 244 and 261:
`(downloaded as f64 / total_size as f64 * 100.0) as u64`. -/
def percentF64 (dl t : Nat) : Nat :=
  (f64mul100 (f64div (f64ofNat dl) (f64ofNat t))).trunc

/-- `Duration::as_secs_f64` (line 228) of a whole-millisecond duration:
`secs as f64 + (nanos as f64 / 1e9)`, each operation rounded. -/
def elapsedSecsF64 (ms : Nat) : Frac :=
  f64add (f64ofNat (ms / 1000))
    (f64div (f64ofNat (ms % 1000 * 1000000)) (f64ofNat 1000000000))

/-- The speed computation of line 232:
`(bytes_since_last as f64 / time_elapsed) as u64`. -/
def speedF64 (bytes ms : Nat) : Nat :=
  (f64div (f64ofNat bytes) (elapsedSecsF64 ms)).trunc

/-- Wrapping `u64` subtraction (release-mode semantics of
`total_size - downloaded` at line 236; underflows when
`downloaded > total_size`). -/
def sub64 (a b : Nat) : Nat := (a + (2 ^ 64 - b)) % 2 ^ 64

/-- Specification-level round-half-even to an integer, on `ℚ`; used only
in proofs, to reason about `rndFrac`. -/
def rnd (x : ℚ) : ℤ :=
  if x - ⌊x⌋ < 1 / 2 then ⌊x⌋
  else if 1 / 2 < x - ⌊x⌋ then ⌊x⌋ + 1
  else if ⌊x⌋ % 2 = 0 then ⌊x⌋ else ⌊x⌋ + 1

/-- The rational value of a pair, by division in `ℚ`. -/
def Frac.val (a : Frac) : ℚ := (a.n : ℚ) / (a.d : ℚ)

/-- A progress event emitted by the transfer loop: either a coarse
percentage event (`download_progress`, line 265) or a detailed event
(`download_progress_detailed`, line 251) carrying percentage, byte
counts, speed and optional ETA. -/
inductive Event
  | coarse (percent : Nat)
  | detailed (percentage downloaded total speed : Nat) (eta : Option Nat)
deriving Repr, DecidableEq

/-- The mutable state of one transfer (lines 189-195): bytes written so
far, the last coarse percentage emitted, and the detailed-telemetry window
anchor (time of last sample in ms, bytes at last sample). -/
structure TState where
  downloaded : Nat
  lastProgress : Nat
  lastUpdateTime : Nat
  lastDownloaded : Nat
deriving Repr, DecidableEq

/-- Initial transfer state (lines 189-195): nothing downloaded, no coarse
event emitted, telemetry anchored at transfer start (time 0). -/
def initTState : TState := ⟨0, 0, 0, 0⟩

/-- Coarse progress step (lines 259-268): only when the total size is
known (`total_size > 0`), compute the `f64` percentage (`percentF64`) and
emit it when it gained at least one point over the last emitted value or
equals 100, updating `last_progress`.  Returns the emitted events and the
new `last_progress`. -/
def coarseStep (totalSize lastProgress downloaded : Nat) : List Event × Nat :=
  if 0 < totalSize then
    let progress := percentF64 downloaded totalSize
    if lastProgress + 1 ≤ progress ∨ progress = 100 then
      ([Event.coarse progress], progress)
    else ([], lastProgress)
  else ([], lastProgress)

/-- Detailed progress step (lines 225-257): when at least 500 ms have
elapsed since the window anchor (`as_millis`, exact) and the `f64`
elapsed seconds is positive, emit a detailed event with the `f64` speed
(`speedF64`) and, when the total is known and the speed positive,
`eta = (total - downloaded) / speed` with the wrapping `u64` subtraction;
the window anchor is moved whenever the 500 ms gate fires.  Returns the
emitted events, the new anchor time and the new anchor byte count. -/
def detailedStep (totalSize lastUpdateTime lastDownloaded downloaded now : Nat) :
    List Event × Nat × Nat :=
  let elapsedMs := now - lastUpdateTime
  if 500 ≤ elapsedMs then
    let bytesSince := downloaded - lastDownloaded
    let evs :=
      if 0 < (elapsedSecsF64 elapsedMs).n then
        let speed := speedF64 bytesSince elapsedMs
        let eta := if 0 < totalSize ∧ 0 < speed then
            some (sub64 totalSize downloaded / speed) else none
        let pct := if 0 < totalSize then percentF64 downloaded totalSize else 0
        [Event.detailed pct downloaded totalSize speed eta]
      else []
    (evs, now, downloaded)
  else ([], lastUpdateTime, lastDownloaded)

/-- Processing of one received chunk (lines 220-268): add its length to
`downloaded`, then run the detailed step, then the coarse step, in source
order. -/
def processChunk (totalSize : Nat) (st : TState) (sz now : Nat) :
    TState × List Event :=
  let downloaded := st.downloaded + sz
  let d := detailedStep totalSize st.lastUpdateTime st.lastDownloaded downloaded now
  let c := coarseStep totalSize st.lastProgress downloaded
  (⟨downloaded, c.2, d.2.1, d.2.2⟩, d.1 ++ c.1)

/-- What `cancel_rx.try_recv()` (line 200) observes at one loop iteration:
a cancellation signal, an empty (still open) channel, or a closed channel
(sender dropped without signaling). -/
inductive CancelObs
  | signaled
  | empty
  | closed
deriving Repr, DecidableEq

/-- The stream event of one loop iteration: the 100 ms timeout fired
(line 282), a chunk arrived (with the success of its file write, line
222), the stream produced an error (line 270), or the stream ended
(line 275). -/
inductive LoopEvent
  | tick
  | chunk (size : Nat) (writeOk : Bool)
  | errItem (msg : String)
  | ended
deriving Repr, DecidableEq

/-- One iteration of the transfer loop: the cancellation-channel
observation made at its start, the wall-clock time (ms) at which its chunk
is processed, and its stream event. -/
structure LoopIter where
  cancel : CancelObs
  now : Nat
  event : LoopEvent
deriving Repr, DecidableEq

/-- Terminal outcome of the transfer loop; `pending` means the iteration
schedule was exhausted with the loop still running. -/
inductive TOutcome
  | completed
  | cancelled
  | failed (msg : String)
  | pending
deriving Repr, DecidableEq

/-- Result of running the transfer loop: outcome, emitted events, final
transfer state, and whether the loop itself called `remove_download`
(lines 203, 272, 289; the write-failure return at line 222 does not). -/
structure LoopOut where
  outcome : TOutcome
  events : List Event
  finalState : TState
  removed : Bool
deriving Repr, DecidableEq

/-- The transfer loop (lines 198-286).  Each iteration first checks the
cancellation channel: a signal terminates with `cancelled` (and
deregisters); a closed channel and an empty channel both fall through to
the stream (the two arms are kept separate here exactly as in the source,
lines 206-212).  A chunk is written (write failure terminates with the
write error and does not deregister, line 222) and then processed for
telemetry; a stream error terminates with the read error (deregistering,
line 272); end of stream terminates with `completed` (deregistering,
line 289). -/
def runLoop (totalSize : Nat) (st : TState) : List LoopIter → LoopOut
  | [] => ⟨.pending, [], st, false⟩
  | it :: rest =>
    match it.cancel with
    | .signaled => ⟨.cancelled, [], st, true⟩
    | .closed =>
      match it.event with
      | .tick => runLoop totalSize st rest
      | .ended => ⟨.completed, [], st, true⟩
      | .errItem msg => ⟨.failed ("Failed to read chunk: " ++ msg), [], st, true⟩
      | .chunk sz writeOk =>
        if writeOk then
          let p := processChunk totalSize st sz it.now
          let r := runLoop totalSize p.1 rest
          ⟨r.outcome, p.2 ++ r.events, r.finalState, r.removed⟩
        else ⟨.failed "Failed to write to file", [], st, false⟩
    | .empty =>
      match it.event with
      | .tick => runLoop totalSize st rest
      | .ended => ⟨.completed, [], st, true⟩
      | .errItem msg => ⟨.failed ("Failed to read chunk: " ++ msg), [], st, true⟩
      | .chunk sz writeOk =>
        if writeOk then
          let p := processChunk totalSize st sz it.now
          let r := runLoop totalSize p.1 rest
          ⟨r.outcome, p.2 ++ r.events, r.finalState, r.removed⟩
        else ⟨.failed "Failed to write to file", [], st, false⟩

/-- The coarse percentages of an event list, in emission order. -/
def coarseOf (l : List Event) : List Nat :=
  l.filterMap fun e =>
    match e with
    | .coarse p => some p
    | _ => none

/-- The detailed events of an event list, in emission order. -/
def detailedOf (l : List Event) : List Event :=
  l.filter fun e =>
    match e with
    | .detailed _ _ _ _ _ => true
    | _ => false

/-- State of the process-wide cancellation registry (`download_tracker`,
lines 44-83): the `ACTIVE_DOWNLOADS` map as an association list from
download id to its one-shot sender handle (handles are numbered by a
creation counter `next`), together with the list of handles on which a
cancellation signal has been sent. -/
structure RegState where
  entries : List (String × Nat)
  signaled : List Nat
  next : Nat
deriving Repr, DecidableEq

/-- The empty registry. -/
def emptyReg : RegState := ⟨[], [], 0⟩

/-- Key lookup in the association list backing the registry map. -/
def lookupId (id : String) : List (String × Nat) → Option Nat
  | [] => none
  | p :: rest => if p.1 = id then some p.2 else lookupId id rest

/-- Key removal in the association list backing the registry map. -/
def removeId (id : String) : List (String × Nat) → List (String × Nat)
  | [] => []
  | p :: rest => if p.1 = id then removeId id rest else p :: removeId id rest

/-- `download_tracker::add_download` (lines 61-64): insert the download
under its id, overwriting any existing entry (HashMap insert semantics);
the handle stored is the freshly created sender of the new one-shot
channel (line 91). -/
def add_download (id : String) (s : RegState) : RegState :=
  ⟨(id, s.next) :: removeId id s.entries, s.signaled, s.next + 1⟩

/-- `download_tracker::cancel_download` (lines 67-76): remove the entry
for the id if present and send the cancellation signal on its handle,
returning whether an entry was found. -/
def cancel_download (id : String) (s : RegState) : Bool × RegState :=
  match lookupId id s.entries with
  | some h => (true, ⟨removeId id s.entries, h :: s.signaled, s.next⟩)
  | none => (false, s)

/-- `download_tracker::remove_download` (lines 79-82): unconditionally
remove the entry for the id (dropping its sender without signaling). -/
def remove_download (id : String) (s : RegState) : RegState :=
  ⟨removeId id s.entries, s.signaled, s.next⟩

/-- Auth-token selection of `download_file` (lines 102-110): an explicit
`auth_token` parameter always wins; otherwise the first `auth_token`
query pair of the parsed URL is used; otherwise no token. -/
def select_auth_token (authToken : Option String)
    (queryPairs : List (String × String)) : Option String :=
  match authToken with
  | some token => some token
  | none => (queryPairs.find? fun p => p.1 == "auth_token").map (·.2)

/-- Failure modes of save-path resolution (lines 169-180). -/
inductive PathErr
  | environmentError
  | ioError
deriving Repr, DecidableEq

/-- Save-path resolution (lines 169-180): an absolute path is returned
unchanged with no directory creation; a relative path is joined onto the
platform downloads directory (failing when that directory cannot be
determined), with the parent directories of the joined path created
(failure surfacing as an I/O error).  The boolean of the result records
whether directories were created. -/
def resolve_save_path (savePath : String) (isAbsolute : Bool)
    (downloadDir : Option String) (mkdirOk : Bool) :
    Except PathErr (String × Bool) :=
  if isAbsolute then .ok (savePath, false)
  else
    match downloadDir with
    | none => .error .environmentError
    | some d =>
      if mkdirOk then .ok (d ++ "/" ++ savePath, true)
      else .error .ioError

/-- An HTTP response as `download_file` observes it: success flag and
numeric code of the status, and the declared content length (if any). -/
structure HttpResp where
  success : Bool
  code : Nat
  contentLength : Option Nat
deriving Repr, DecidableEq

/-- Environment of one `download_file` invocation: the download id and
request parameters, and the outcome of every fallible external step.
`urlQueryPairs` is the query-pair list of the parsed URL (`none` = parse
failure); `tokenValid` is whether a string parses as a header value;
`headResp` is the HEAD response (`none` = send failure); `gets i` is the
response of the `i`-th GET request issued (`none` = send failure);
`iters` is the transfer-loop schedule. -/
structure DlEnv where
  downloadId : String
  urlQueryPairs : Option (List (String × String))
  authToken : Option String
  tokenValid : String → Bool
  clientOk : Bool
  headResp : Option HttpResp
  gets : Nat → Option HttpResp
  saveIsAbsolute : Bool
  savePath : String
  downloadDir : Option String
  mkdirOk : Bool
  createFileOk : Bool
  iters : List LoopIter

/-- Observable result of one `download_file` invocation: the returned
value (`none` when the loop schedule was exhausted before a terminal
outcome), the emitted events, how many GET requests were issued, the
index of the GET response whose body was streamed, the total size used
for progress, the resolved destination path, the bytes written by the
loop, and the final registry state. -/
structure DlOut where
  result : Option (Except String Unit)
  events : List Event
  getCount : Nat
  streamedGet : Option Nat
  totalSize : Nat
  resolvedPath : Option String
  downloadedBytes : Nat
  reg : RegState

/-- The `download_file` command (lines 87-293), step by step in source
order: register the download (line 94); parse the URL (line 97); select
and validate the auth token (lines 102-110); build the client (line 113);
send HEAD (line 119; a non-success HEAD status is only logged, lines
123-125); take the HEAD content length, defaulting to 0 (line 128); when
it is 0, issue a probe GET, abort on its non-success status, read its
length and set `needs_get_request = false`, otherwise issue the GET with
a status check and set `needs_get_request = true` (lines 132-153); when
`needs_get_request` is false issue a further GET with no status check and
stream that response instead (lines 156-162); re-read the total size from
the streamed response (line 165); resolve the save path (lines 169-180);
create the destination file (line 185); run the transfer loop (lines
198-286); deregister on the loop paths that do so and return (lines
288-292).  Every early error return leaves the registry exactly as the
corresponding source path does. -/
def download_file (env : DlEnv) (reg0 : RegState) : DlOut :=
  let reg := add_download env.downloadId reg0
  match env.urlQueryPairs with
  | none =>
    ⟨some (.error "Invalid URL"), [], 0, none, 0, none, 0, reg⟩
  | some queryPairs =>
    let tokenOk :=
      match select_auth_token env.authToken queryPairs with
      | some tok => env.tokenValid tok
      | none => true
    if tokenOk = false then
      ⟨some (.error "Invalid auth token"), [], 0, none, 0, none, 0, reg⟩
    else if env.clientOk = false then
      ⟨some (.error "Failed to create HTTP client"), [], 0, none, 0, none, 0, reg⟩
    else
      match env.headResp with
      | none =>
        ⟨some (.error "Failed to send HEAD request"), [], 0, none, 0, none, 0, reg⟩
      | some hr =>
        let totalSize0 := hr.contentLength.getD 0
        let getStage : Except (String × Nat) (HttpResp × Nat × Nat × Nat) :=
          if totalSize0 = 0 then
            match env.gets 0 with
            | none => .error ("Failed to send GET request", 1)
            | some g0 =>
              if g0.success = false then
                .error ("HTTP request failed with status: " ++ toString g0.code, 1)
              else
                match env.gets 1 with
                | none => .error ("Failed to send GET request", 2)
                | some g1 => .ok (g1, g0.contentLength.getD 0, 2, 1)
          else
            match env.gets 0 with
            | none => .error ("Failed to send GET request", 1)
            | some g0 =>
              if g0.success = false then
                .error ("HTTP request failed with status: " ++ toString g0.code, 1)
              else .ok (g0, totalSize0, 1, 0)
        match getStage with
        | .error e =>
          ⟨some (.error e.1), [], e.2, none, 0, none, 0, reg⟩
        | .ok stage =>
          let response := stage.1
          let totalSize1 := stage.2.1
          let nGets := stage.2.2.1
          let streamedIdx := stage.2.2.2
          let totalSize := response.contentLength.getD totalSize1
          match resolve_save_path env.savePath env.saveIsAbsolute
              env.downloadDir env.mkdirOk with
          | .error .environmentError =>
            ⟨some (.error "Could not determine download directory"), [],
              nGets, some streamedIdx, totalSize, none, 0, reg⟩
          | .error .ioError =>
            ⟨some (.error "Failed to create directories"), [],
              nGets, some streamedIdx, totalSize, none, 0, reg⟩
          | .ok resolved =>
            if env.createFileOk = false then
              ⟨some (.error "Failed to create file"), [],
                nGets, some streamedIdx, totalSize, some resolved.1, 0, reg⟩
            else
              let lr := runLoop totalSize initTState env.iters
              let result : Option (Except String Unit) :=
                match lr.outcome with
                | .completed => some (.ok ())
                | .cancelled => some (.error "Download cancelled")
                | .failed m => some (.error m)
                | .pending => none
              let reg1 := if lr.removed then remove_download env.downloadId reg
                else reg
              ⟨result, lr.events, nGets, some streamedIdx, totalSize,
                some resolved.1, lr.finalState.downloaded, reg1⟩

/-- Replace a closed-channel observation by an empty-channel observation,
leaving signals and everything else untouched. -/
def closed_to_empty (it : LoopIter) : LoopIter :=
  match it.cancel with
  | .closed => ⟨.empty, it.now, it.event⟩
  | _ => it

/-- Environment of a `download_file` call whose URL fails to parse
(line 97); every later step is unreachable. -/
def invalidUrlEnv : DlEnv :=
  ⟨"dl-1", none, none, fun _ => true, true, none, fun _ => none, true,
    "/tmp/out.bin", none, true, true, []⟩

/-- Environment of the spec's probe scenario: the HEAD response is a
success with no content length, and every GET returns 200 with content
length 500; the stream ends immediately. -/
def headNoLengthEnv : DlEnv :=
  ⟨"dl-2", some [], none, fun _ => true, true, some ⟨true, 200, none⟩,
    fun _ => some ⟨true, 200, some 500⟩, true, "/tmp/out.bin", none, true,
    true, [⟨.empty, 0, .ended⟩]⟩

/-- Environment in which the HEAD response has no content length, the
probe GET succeeds (200, content length 500), and the further GET — the
one whose body is streamed — returns a non-success 503; the stream then
delivers 500 bytes and ends. -/
def failedStreamGetEnv : DlEnv :=
  ⟨"dl-6", some [], none, fun _ => true, true, some ⟨true, 200, none⟩,
    fun i => if i = 0 then some ⟨true, 200, some 500⟩
      else some ⟨false, 503, some 500⟩,
    true, "/tmp/out.bin", none, true, true,
    [⟨.empty, 0, .chunk 500 true⟩, ⟨.empty, 100, .ended⟩]⟩

/-- Environment in which the HEAD request returns a non-success 404 that
nonetheless declares content length 500, and the GET succeeds. -/
def failedHeadEnv : DlEnv :=
  ⟨"dl-6b", some [], none, fun _ => true, true, some ⟨false, 404, some 500⟩,
    fun _ => some ⟨true, 200, some 500⟩, true, "/tmp/out.bin", none, true,
    true, [⟨.empty, 0, .chunk 500 true⟩, ⟨.empty, 100, .ended⟩]⟩

/-! ## Helper lemmas -/

theorem log2h_spec : ∀ (fuel n : Nat), 1 ≤ n → n < 2 ^ fuel →
    2 ^ log2h fuel n ≤ n ∧ n < 2 ^ (log2h fuel n + 1)
  | 0, n, h1, hlt => by simp at hlt; omega
  | fuel + 1, n, h1, hlt => by
    by_cases h2 : 2 ≤ n
    · have h1' : 1 ≤ n / 2 := by omega
      have hlt' : n / 2 < 2 ^ fuel := by
        rw [pow_succ] at hlt
        omega
      obtain ⟨ih1, ih2⟩ := log2h_spec fuel (n / 2) h1' hlt'
      have heq : log2h (fuel + 1) n = log2h fuel (n / 2) + 1 := by
        simp [log2h, h2]
      rw [heq]
      have e1 : 2 ^ (log2h fuel (n / 2) + 1) = 2 ^ log2h fuel (n / 2) * 2 :=
        pow_succ 2 _
      have e2 : 2 ^ (log2h fuel (n / 2) + 1 + 1) =
          2 ^ log2h fuel (n / 2) * 2 * 2 := by
        rw [pow_succ, pow_succ]
      constructor
      · omega
      · omega
    · have heq : log2h (fuel + 1) n = 0 := by simp [log2h, h2]
      rw [heq]
      constructor
      · simpa using h1
      · simpa using (by omega : n < 2)
  termination_by fuel => fuel

theorem natLog2_spec (n : Nat) (h1 : 1 ≤ n) :
    2 ^ natLog2 n ≤ n ∧ n < 2 ^ (natLog2 n + 1) :=
  log2h_spec n n h1 (Nat.lt_two_pow n)

theorem Frac.val_nonneg (a : Frac) : 0 ≤ a.val :=
  div_nonneg (Nat.cast_nonneg _) (Nat.cast_nonneg _)

theorem Frac.val_pos_iff {a : Frac} (hd : 0 < a.d) : 0 < a.val ↔ 0 < a.n := by
  unfold Frac.val
  constructor
  · intro h
    by_contra h0
    have hz : a.n = 0 := by omega
    rw [hz] at h
    simp at h
  · intro h
    exact div_pos (by exact_mod_cast h) (by exact_mod_cast hd)

theorem Frac.val_div (a b : Frac) : (a.div b).val = a.val / b.val := by
  unfold Frac.val Frac.div
  push_cast
  rw [div_div_eq_mul_div, div_mul_eq_mul_div, div_div]

theorem Frac.val_add {a b : Frac} (hda : 0 < a.d) (hdb : 0 < b.d) :
    (a.add b).val = a.val + b.val := by
  unfold Frac.val Frac.add
  push_cast
  rw [div_add_div _ _ (by positivity) (by positivity)]
  ring_nf

theorem Frac.val_mulNat (a : Frac) (k : Nat) : (a.mulNat k).val = a.val * k := by
  unfold Frac.val Frac.mulNat
  push_cast
  rw [div_mul_eq_mul_div]

theorem Frac.val_ofNatPair (k : Nat) : (⟨k, 1⟩ : Frac).val = k := by
  unfold Frac.val
  simp

theorem Frac.val_scale (a : Frac) (k : Int) :
    (a.scale k).val = a.val * 2 ^ k := by
  unfold Frac.scale Frac.val
  by_cases hk : 0 ≤ k
  · rw [if_pos hk]
    push_cast
    rw [show ((2:ℚ) ^ k.toNat) = (2:ℚ) ^ k by
      rw [← zpow_natCast, Int.toNat_of_nonneg hk]]
    rw [div_mul_eq_mul_div]
  · rw [if_neg hk]
    push_cast
    rw [show ((2:ℚ) ^ (-k).toNat) = (2:ℚ) ^ (-k) by
      rw [← zpow_natCast, Int.toNat_of_nonneg (by omega)]]
    rw [← div_div, zpow_neg, div_eq_mul_inv _ ((2:ℚ)^k)⁻¹, inv_inv]

theorem Frac.scale_den_pos {a : Frac} (hd : 0 < a.d) (k : Int) :
    0 < (a.scale k).d := by
  unfold Frac.scale
  split
  · exact hd
  · exact Nat.mul_pos hd (Nat.pos_pow_of_pos _ (by norm_num))

theorem Frac.trunc_le_val (a : Frac) : (a.trunc : ℚ) ≤ a.val :=
  Nat.cast_div_le

theorem Frac.val_lt_trunc_succ {a : Frac} (hd : 0 < a.d) :
    a.val < a.trunc + 1 := by
  unfold Frac.val Frac.trunc
  rw [div_lt_iff₀ (by exact_mod_cast hd)]
  have h : a.n < (a.n / a.d + 1) * a.d := by
    have h1 := Nat.div_add_mod a.n a.d
    have h2 := Nat.mod_lt a.n hd
    have h3 : (a.n / a.d + 1) * a.d = a.d * (a.n / a.d) + a.d := by ring
    omega
  calc (a.n : ℚ) < ((a.n / a.d + 1) * a.d : ℕ) := by exact_mod_cast h
    _ = ((a.n / a.d : ℕ) + 1) * a.d := by push_cast; ring

theorem Frac.trunc_mono {a b : Frac} (hdb : 0 < b.d)
    (h : a.val ≤ b.val) : a.trunc ≤ b.trunc := by
  have h1 : (a.trunc : ℚ) ≤ b.val := le_trans (Frac.trunc_le_val a) h
  have h2 : (a.trunc : ℚ) < b.trunc + 1 :=
    lt_of_le_of_lt h1 (Frac.val_lt_trunc_succ hdb)
  have h3 : a.trunc < b.trunc + 1 := by exact_mod_cast h2
  omega

theorem Frac.trunc_eq_of_val_natCast {a : Frac} (hd : 0 < a.d) (k : Nat)
    (h : a.val = k) : a.trunc = k := by
  have h1 : (a.trunc : ℚ) ≤ k := h ▸ Frac.trunc_le_val a
  have h2 : (k : ℚ) < a.trunc + 1 := h ▸ Frac.val_lt_trunc_succ hd
  have h3 : a.trunc ≤ k := by exact_mod_cast h1
  have h4 : k < a.trunc + 1 := by exact_mod_cast h2
  omega

theorem rnd_intCast (k : ℤ) : rnd (k : ℚ) = k := by
  unfold rnd
  norm_num [Int.floor_intCast]

theorem floor_le_rnd (x : ℚ) : ⌊x⌋ ≤ rnd x := by
  unfold rnd
  split_ifs <;> omega

theorem rnd_le_floor_add_one (x : ℚ) : rnd x ≤ ⌊x⌋ + 1 := by
  unfold rnd
  split_ifs <;> omega

theorem rnd_mono {x y : ℚ} (h : x ≤ y) : rnd x ≤ rnd y := by
  rcases lt_or_eq_of_le (Int.floor_le_floor h) with hf | hf
  · calc rnd x ≤ ⌊x⌋ + 1 := rnd_le_floor_add_one x
      _ ≤ ⌊y⌋ := by omega
      _ ≤ rnd y := floor_le_rnd y
  · have hr : x - (⌊y⌋ : ℚ) ≤ y - ⌊y⌋ := by
      have : ((⌊x⌋ : ℚ)) = ⌊y⌋ := by exact_mod_cast hf
      linarith
    unfold rnd
    rw [hf]
    split_ifs <;> first | omega | linarith

theorem Frac.floor_val {a : Frac} (hd : 0 < a.d) :
    ⌊a.val⌋ = ((a.n / a.d : ℕ) : ℤ) := by
  rw [Int.floor_eq_iff]
  constructor
  · exact_mod_cast Frac.trunc_le_val a
  · exact_mod_cast Frac.val_lt_trunc_succ hd

theorem Frac.frac_val {a : Frac} (hd : 0 < a.d) :
    a.val - (⌊a.val⌋ : ℚ) = ((a.n % a.d : ℕ) : ℚ) / a.d := by
  have hd' : (0:ℚ) < a.d := by exact_mod_cast hd
  rw [Frac.floor_val hd]
  unfold Frac.val
  rw [eq_div_iff (ne_of_gt hd'), sub_mul, div_mul_cancel₀ _ (ne_of_gt hd')]
  have h1 : a.d * (a.n / a.d) + a.n % a.d = a.n := Nat.div_add_mod a.n a.d
  have h1' : ((a.d : ℚ)) * ((a.n / a.d : ℕ) : ℚ) + ((a.n % a.d : ℕ) : ℚ) =
      (a.n : ℚ) := by
    exact_mod_cast h1
  simp only [Int.cast_natCast]
  linarith

theorem rndFrac_eq_rnd {a : Frac} (hd : 0 < a.d) :
    (rndFrac a : ℤ) = rnd a.val := by
  have hd' : (0:ℚ) < a.d := by exact_mod_cast hd
  have hfr := Frac.frac_val hd
  have hfl := Frac.floor_val hd
  have hc1 : a.val - (⌊a.val⌋ : ℚ) < 1 / 2 ↔ 2 * (a.n % a.d) < a.d := by
    rw [hfr, div_lt_div_iff₀ hd' (by norm_num : (0:ℚ) < 2), one_mul]
    constructor
    · intro h
      have h2 : (a.n % a.d) * 2 < a.d := by exact_mod_cast h
      omega
    · intro h
      have h2 : (a.n % a.d) * 2 < a.d := by omega
      exact_mod_cast h2
  have hc2 : 1 / 2 < a.val - (⌊a.val⌋ : ℚ) ↔ a.d < 2 * (a.n % a.d) := by
    rw [hfr, div_lt_div_iff₀ (by norm_num : (0:ℚ) < 2) hd', one_mul]
    constructor
    · intro h
      have h2 : a.d < (a.n % a.d) * 2 := by exact_mod_cast h
      omega
    · intro h
      have h2 : a.d < (a.n % a.d) * 2 := by omega
      exact_mod_cast h2
  have hc3 : ⌊a.val⌋ % 2 = 0 ↔ (a.n / a.d) % 2 = 0 := by
    rw [hfl]
    omega
  unfold rnd rndFrac
  simp only [hc1, hc2, hc3]
  simp only [hfl]
  split_ifs <;> push_cast <;> ring

theorem eExp_sandwich {a : Frac} (hn : 0 < a.n) (hd : 0 < a.d) :
    (2:ℚ) ^ eExp a ≤ a.val ∧ a.val < 2 ^ (eExp a + 1) := by
  have hd' : (0:ℚ) < a.d := by exact_mod_cast hd
  have hd2 : a.d < 2 ^ (natLog2 a.d + 1) := (natLog2_spec a.d hd).2
  have hdle : a.d ≤ 2 ^ (natLog2 a.d + 64) := by
    calc a.d ≤ 2 ^ (natLog2 a.d + 1) := le_of_lt hd2
      _ ≤ 2 ^ (natLog2 a.d + 64) := Nat.pow_le_pow_right (by norm_num) (by omega)
  have hk1 : 1 ≤ a.n * 2 ^ (natLog2 a.d + 64) / a.d := by
    rw [Nat.le_div_iff_mul_le hd, one_mul]
    calc a.d ≤ 2 ^ (natLog2 a.d + 64) := hdle
      _ ≤ a.n * 2 ^ (natLog2 a.d + 64) := Nat.le_mul_of_pos_left _ hn
  obtain ⟨hkl, hku⟩ := natLog2_spec _ hk1
  have hlow : 2 ^ natLog2 (a.n * 2 ^ (natLog2 a.d + 64) / a.d) * a.d ≤
      a.n * 2 ^ (natLog2 a.d + 64) := by
    rw [← Nat.le_div_iff_mul_le hd]
    exact hkl
  have hhigh : a.n * 2 ^ (natLog2 a.d + 64) <
      2 ^ (natLog2 (a.n * 2 ^ (natLog2 a.d + 64) / a.d) + 1) * a.d :=
    (Nat.div_lt_iff_lt_mul hd).mp hku
  set L := natLog2 (a.n * 2 ^ (natLog2 a.d + 64) / a.d) with hL
  set s := natLog2 a.d + 64 with hs
  have he : eExp a = (L : ℤ) - (s : ℤ) := rfl
  rw [he]
  have h2s : (0:ℚ) < 2 ^ s := by positivity
  have hlq : ((2:ℚ) ^ L) * a.d ≤ (a.n : ℚ) * 2 ^ s := by exact_mod_cast hlow
  have hhq : (a.n : ℚ) * 2 ^ s < 2 ^ (L + 1) * a.d := by exact_mod_cast hhigh
  constructor
  · rw [zpow_sub₀ (by norm_num : (2:ℚ) ≠ 0), zpow_natCast, zpow_natCast]
    unfold Frac.val
    rw [div_le_div_iff₀ h2s hd']
    linarith
  · have he1 : (L : ℤ) - s + 1 = ((L + 1 : ℕ) : ℤ) - (s : ℤ) := by push_cast; ring
    rw [he1, zpow_sub₀ (by norm_num : (2:ℚ) ≠ 0), zpow_natCast, zpow_natCast]
    unfold Frac.val
    rw [div_lt_div_iff₀ hd' h2s]
    linarith

theorem Frac.scale_n_pos {a : Frac} (hn : 0 < a.n) (k : Int) :
    0 < (a.scale k).n := by
  unfold Frac.scale
  split_ifs
  · exact Nat.mul_pos hn (Nat.pos_pow_of_pos _ (by norm_num))
  · exact hn

theorem roundF64_den_pos (a : Frac) : 0 < (roundF64 a).d := by
  unfold roundF64
  split
  · norm_num
  · exact Frac.scale_den_pos (by norm_num) _

theorem roundF64_val {a : Frac} (hn : 0 < a.n) (hd : 0 < a.d) :
    (roundF64 a).val =
      ((rnd (a.val * 2 ^ ((52:ℤ) - eExp a)) : ℤ) : ℚ) * 2 ^ (eExp a - 52) := by
  unfold roundF64
  rw [if_neg (by omega)]
  rw [Frac.val_scale, Frac.val_ofNatPair]
  congr 1
  have hds : 0 < (a.scale (52 - eExp a)).d := Frac.scale_den_pos hd _
  have h := rndFrac_eq_rnd hds
  rw [Frac.val_scale] at h
  exact_mod_cast h

theorem scaled_bounds {a : Frac} (hn : 0 < a.n) (hd : 0 < a.d) :
    (2:ℚ) ^ (52:ℤ) ≤ a.val * 2 ^ ((52:ℤ) - eExp a) ∧
      a.val * 2 ^ ((52:ℤ) - eExp a) < 2 ^ (53:ℤ) := by
  obtain ⟨h1, h2⟩ := eExp_sandwich hn hd
  have hp : (0:ℚ) < 2 ^ ((52:ℤ) - eExp a) := zpow_pos (by norm_num) _
  have ha : (2:ℚ) ^ (52:ℤ) = 2 ^ (eExp a) * 2 ^ ((52:ℤ) - eExp a) := by
    rw [← zpow_add₀ (by norm_num : (2:ℚ) ≠ 0)]
    congr 1
    omega
  have hb : (2:ℚ) ^ (eExp a + 1) * 2 ^ ((52:ℤ) - eExp a) = 2 ^ (53:ℤ) := by
    rw [← zpow_add₀ (by norm_num : (2:ℚ) ≠ 0)]
    congr 1
    omega
  constructor
  · rw [ha]
    exact mul_le_mul_of_nonneg_right h1 (le_of_lt hp)
  · rw [← hb]
    exact (mul_lt_mul_right hp).mpr h2

theorem roundF64_n_pos {a : Frac} (hn : 0 < a.n) (hd : 0 < a.d) :
    0 < (roundF64 a).n := by
  unfold roundF64
  rw [if_neg (by omega)]
  have hds : 0 < (a.scale (52 - eExp a)).d := Frac.scale_den_pos hd _
  have hm : 0 < rndFrac (a.scale (52 - eExp a)) := by
    have hval : (1:ℚ) ≤ (a.scale ((52:ℤ) - eExp a)).val := by
      rw [Frac.val_scale]
      calc (1:ℚ) ≤ 2 ^ (52:ℤ) := by norm_num
        _ ≤ a.val * 2 ^ ((52:ℤ) - eExp a) := (scaled_bounds hn hd).1
    have hdn : (a.scale ((52:ℤ) - eExp a)).d ≤ (a.scale ((52:ℤ) - eExp a)).n := by
      have h2 : ((a.scale ((52:ℤ) - eExp a)).d : ℚ) ≤
          (a.scale ((52:ℤ) - eExp a)).n := by
        have := hval
        unfold Frac.val at this
        rw [le_div_iff₀ (by exact_mod_cast hds)] at this
        linarith
      exact_mod_cast h2
    have hq : 1 ≤ (a.scale ((52:ℤ) - eExp a)).n / (a.scale ((52:ℤ) - eExp a)).d :=
      (Nat.one_le_div_iff hds).mpr hdn
    unfold rndFrac
    split_ifs <;> omega
  show 0 < (Frac.scale ⟨rndFrac (a.scale ((52:ℤ) - eExp a)), 1⟩
    (eExp a - 52)).n
  exact Frac.scale_n_pos hm _

theorem roundF64_natCast {a : Frac} (hd : 0 < a.d) (v : Nat)
    (hv : a.val = v) (h1 : 1 ≤ v) (h53 : v < 2 ^ 53) :
    (roundF64 a).val = v := by
  have hn : 0 < a.n := by
    refine (Frac.val_pos_iff hd).mp ?_
    rw [hv]
    exact_mod_cast h1
  rw [roundF64_val hn hd, hv]
  obtain ⟨hs1, hs2⟩ := eExp_sandwich hn hd
  rw [hv] at hs1 hs2
  have hv1 : (1:ℚ) ≤ (v:ℚ) := by exact_mod_cast h1
  have hv53 : (v:ℚ) < 2 ^ (53:ℤ) := by
    have : ((v:ℚ)) < ((2 ^ 53 : ℕ) : ℚ) := by exact_mod_cast h53
    calc (v:ℚ) < ((2 ^ 53 : ℕ) : ℚ) := this
      _ = 2 ^ (53:ℤ) := by push_cast; norm_num
  have he0 : 0 ≤ eExp a := by
    by_contra h
    push_neg at h
    have h2 : (2:ℚ) ^ (eExp a + 1) ≤ 2 ^ (0:ℤ) :=
      zpow_le_zpow_right₀ (by norm_num) (by omega)
    rw [zpow_zero] at h2
    linarith
  have he52 : eExp a ≤ 52 := by
    by_contra h
    push_neg at h
    have h2 : (2:ℚ) ^ (53:ℤ) ≤ 2 ^ (eExp a) :=
      zpow_le_zpow_right₀ (by norm_num) (by omega)
    linarith
  have hk : ((v:ℚ)) * 2 ^ ((52:ℤ) - eExp a) =
      (((v * 2 ^ ((52:ℤ) - eExp a).toNat : ℕ) : ℤ) : ℚ) := by
    push_cast
    congr 1
    rw [← zpow_natCast, Int.toNat_of_nonneg (by omega)]
  rw [hk, rnd_intCast]
  push_cast
  rw [mul_assoc]
  rw [show ((2:ℚ) ^ ((52:ℤ) - eExp a).toNat) * 2 ^ (eExp a - 52) = 1 by
    rw [← zpow_natCast, Int.toNat_of_nonneg (by omega),
      ← zpow_add₀ (by norm_num : (2:ℚ) ≠ 0)]
    rw [show (52:ℤ) - eExp a + (eExp a - 52) = 0 by omega]
    exact zpow_zero 2]
  rw [mul_one]

theorem rnd_le_of_le_intCast {x : ℚ} {k : ℤ} (h : x ≤ k) : rnd x ≤ k := by
  calc rnd x ≤ rnd (k : ℚ) := rnd_mono h
    _ = k := rnd_intCast k

theorem intCast_le_rnd {x : ℚ} {k : ℤ} (h : (k:ℚ) ≤ x) : k ≤ rnd x := by
  calc k = rnd (k : ℚ) := (rnd_intCast k).symm
    _ ≤ rnd x := rnd_mono h

theorem eExp_mono {a b : Frac} (hna : 0 < a.n) (hda : 0 < a.d)
    (hnb : 0 < b.n) (hdb : 0 < b.d) (h : a.val ≤ b.val) :
    eExp a ≤ eExp b := by
  by_contra hlt
  push_neg at hlt
  have h1 : (2:ℚ) ^ (eExp b + 1) ≤ 2 ^ (eExp a) :=
    zpow_le_zpow_right₀ (by norm_num) (by omega)
  have h2 := (eExp_sandwich hnb hdb).2
  have h3 := (eExp_sandwich hna hda).1
  linarith

theorem intCast_two_pow (k : Nat) : (((2:ℤ) ^ k : ℤ) : ℚ) = (2:ℚ) ^ (k : ℤ) := by
  rw [zpow_natCast]
  push_cast
  ring

theorem roundF64_val_le {a : Frac} (hn : 0 < a.n) (hd : 0 < a.d) :
    (roundF64 a).val ≤ 2 ^ (eExp a + 1) := by
  rw [roundF64_val hn hd]
  have hs := (scaled_bounds hn hd).2
  have hr : rnd (a.val * 2 ^ ((52:ℤ) - eExp a)) ≤ (2:ℤ) ^ 53 := by
    apply rnd_le_of_le_intCast
    rw [intCast_two_pow 53]
    exact le_of_lt hs
  have hp : (0:ℚ) < 2 ^ (eExp a - 52) := zpow_pos (by norm_num) _
  calc ((rnd (a.val * 2 ^ ((52:ℤ) - eExp a)) : ℤ) : ℚ) * 2 ^ (eExp a - 52) ≤
      (((2:ℤ) ^ 53 : ℤ) : ℚ) * 2 ^ (eExp a - 52) := by
        apply mul_le_mul_of_nonneg_right _ (le_of_lt hp)
        exact_mod_cast hr
    _ = 2 ^ (eExp a + 1) := by
        rw [intCast_two_pow 53, ← zpow_add₀ (by norm_num : (2:ℚ) ≠ 0)]
        congr 1
        omega

theorem le_roundF64_val {a : Frac} (hn : 0 < a.n) (hd : 0 < a.d) :
    (2:ℚ) ^ (eExp a) ≤ (roundF64 a).val := by
  rw [roundF64_val hn hd]
  have hs := (scaled_bounds hn hd).1
  have hr : (2:ℤ) ^ 52 ≤ rnd (a.val * 2 ^ ((52:ℤ) - eExp a)) := by
    apply intCast_le_rnd
    rw [intCast_two_pow 52]
    exact hs
  have hp : (0:ℚ) < 2 ^ (eExp a - 52) := zpow_pos (by norm_num) _
  calc (2:ℚ) ^ (eExp a) = (((2:ℤ) ^ 52 : ℤ) : ℚ) * 2 ^ (eExp a - 52) := by
        rw [intCast_two_pow 52, ← zpow_add₀ (by norm_num : (2:ℚ) ≠ 0)]
        congr 1
        omega
    _ ≤ ((rnd (a.val * 2 ^ ((52:ℤ) - eExp a)) : ℤ) : ℚ) * 2 ^ (eExp a - 52) := by
        apply mul_le_mul_of_nonneg_right _ (le_of_lt hp)
        exact_mod_cast hr

theorem roundF64_mono {a b : Frac} (hda : 0 < a.d) (hdb : 0 < b.d)
    (h : a.val ≤ b.val) : (roundF64 a).val ≤ (roundF64 b).val := by
  by_cases hb : b.n = 0
  · have hbv : b.val = 0 := by
      unfold Frac.val
      rw [hb]
      simp
    have hav : a.val = 0 := le_antisymm (hbv ▸ h) (Frac.val_nonneg a)
    have ha : a.n = 0 := by
      by_contra h0
      have := (Frac.val_pos_iff hda).mpr (by omega)
      rw [hav] at this
      exact lt_irrefl 0 this
    unfold roundF64
    rw [if_pos ha, if_pos hb]
  · by_cases ha : a.n = 0
    · have h0 : (roundF64 a).val = 0 := by
        unfold roundF64
        rw [if_pos ha]
        unfold Frac.val
        simp
      rw [h0]
      exact Frac.val_nonneg _
    · have hna : 0 < a.n := by omega
      have hnb : 0 < b.n := by omega
      have he := eExp_mono hna hda hnb hdb h
      rcases eq_or_lt_of_le he with heq | hlt
      · rw [roundF64_val hna hda, roundF64_val hnb hdb, ← heq]
        have hm : rnd (a.val * 2 ^ ((52:ℤ) - eExp a)) ≤
            rnd (b.val * 2 ^ ((52:ℤ) - eExp a)) :=
          rnd_mono (mul_le_mul_of_nonneg_right h
            (le_of_lt (zpow_pos (by norm_num) _)))
        apply mul_le_mul_of_nonneg_right _
          (le_of_lt (zpow_pos (by norm_num : (0:ℚ) < 2) _))
        exact_mod_cast hm
      · have h1 := roundF64_val_le hna hda
        have h2 := le_roundF64_val hnb hdb
        have h3 : (2:ℚ) ^ (eExp a + 1) ≤ 2 ^ (eExp b) :=
          zpow_le_zpow_right₀ (by norm_num) (by omega)
        linarith

theorem f64ofNat_n_pos {k : Nat} (hk : 0 < k) : 0 < (f64ofNat k).n := by
  refine roundF64_n_pos ?_ ?_
  · exact hk
  · norm_num

theorem f64ofNat_val_pos {k : Nat} (hk : 0 < k) : 0 < (f64ofNat k).val :=
  (Frac.val_pos_iff (roundF64_den_pos _)).mpr (f64ofNat_n_pos hk)

theorem f64ofNat_mono {j k : Nat} (h : j ≤ k) :
    (f64ofNat j).val ≤ (f64ofNat k).val := by
  apply roundF64_mono (by norm_num) (by norm_num)
  rw [Frac.val_ofNatPair, Frac.val_ofNatPair]
  exact_mod_cast h

theorem percentF64_mono {t : Nat} (ht : 0 < t) {d1 d2 : Nat} (h : d1 ≤ d2) :
    percentF64 d1 t ≤ percentF64 d2 t := by
  unfold percentF64 f64mul100 f64div
  have hdiv_mono : (roundF64 ((f64ofNat d1).div (f64ofNat t))).val ≤
      (roundF64 ((f64ofNat d2).div (f64ofNat t))).val := by
    refine roundF64_mono ?_ ?_ ?_
    · exact Nat.mul_pos (roundF64_den_pos _) (f64ofNat_n_pos ht)
    · exact Nat.mul_pos (roundF64_den_pos _) (f64ofNat_n_pos ht)
    · rw [Frac.val_div, Frac.val_div]
      exact (div_le_div_iff_of_pos_right (f64ofNat_val_pos ht)).mpr
        (f64ofNat_mono h)
  refine Frac.trunc_mono ?_ ?_
  · exact roundF64_den_pos _
  · refine roundF64_mono ?_ ?_ ?_
    · exact roundF64_den_pos _
    · exact roundF64_den_pos _
    · rw [Frac.val_mulNat, Frac.val_mulNat]
      exact mul_le_mul_of_nonneg_right hdiv_mono (by norm_num)

theorem percentF64_self {t : Nat} (ht : 0 < t) : percentF64 t t = 100 := by
  unfold percentF64 f64mul100 f64div
  have hBd : 0 < (f64ofNat t).d := roundF64_den_pos _
  have hBn : 0 < (f64ofNat t).n := f64ofNat_n_pos ht
  have hdivd : 0 < ((f64ofNat t).div (f64ofNat t)).d := Nat.mul_pos hBd hBn
  have hdivval : ((f64ofNat t).div (f64ofNat t)).val = 1 := by
    rw [Frac.val_div]
    exact div_self (ne_of_gt ((Frac.val_pos_iff hBd).mpr hBn))
  have h1val : (roundF64 ((f64ofNat t).div (f64ofNat t))).val = 1 :=
    roundF64_natCast hdivd 1 (by rw [hdivval]; norm_num) le_rfl (by norm_num)
  have hmulval :
      ((roundF64 ((f64ofNat t).div (f64ofNat t))).mulNat 100).val = 100 := by
    rw [Frac.val_mulNat, h1val]
    norm_num
  have hmuld : 0 <
      ((roundF64 ((f64ofNat t).div (f64ofNat t))).mulNat 100).d :=
    roundF64_den_pos _
  have h100val :
      (roundF64 (((roundF64 ((f64ofNat t).div (f64ofNat t))).mulNat 100))).val
        = 100 :=
    roundF64_natCast hmuld 100 (by rw [hmulval]; norm_num) (by norm_num)
      (by norm_num)
  exact Frac.trunc_eq_of_val_natCast (roundF64_den_pos _) 100 h100val

theorem elapsedSecsF64_n_pos {ms : Nat} (h : 500 ≤ ms) :
    0 < (elapsedSecsF64 ms).n := by
  unfold elapsedSecsF64 f64add f64div
  have hAd : 0 < (f64ofNat (ms / 1000)).d := roundF64_den_pos _
  have hBd : 0 < (roundF64 ((f64ofNat (ms % 1000 * 1000000)).div
      (f64ofNat 1000000000))).d := roundF64_den_pos _
  have hsum_d : 0 < ((f64ofNat (ms / 1000)).add
      (roundF64 ((f64ofNat (ms % 1000 * 1000000)).div
        (f64ofNat 1000000000)))).d := Nat.mul_pos hAd hBd
  have hval : 0 < ((f64ofNat (ms / 1000)).add
      (roundF64 ((f64ofNat (ms % 1000 * 1000000)).div
        (f64ofNat 1000000000)))).val := by
    rw [Frac.val_add hAd hBd]
    by_cases h1000 : 1000 ≤ ms
    · have hA : 0 < (f64ofNat (ms / 1000)).val :=
        f64ofNat_val_pos (by omega)
      have hB := Frac.val_nonneg (roundF64 ((f64ofNat (ms % 1000 * 1000000)).div
        (f64ofNat 1000000000)))
      linarith
    · have hmod : ms % 1000 = ms := Nat.mod_eq_of_lt (by omega)
      have hdivd : 0 < ((f64ofNat (ms % 1000 * 1000000)).div
          (f64ofNat 1000000000)).d :=
        Nat.mul_pos (roundF64_den_pos _) (f64ofNat_n_pos (by norm_num))
      have hdivn : 0 < ((f64ofNat (ms % 1000 * 1000000)).div
          (f64ofNat 1000000000)).n := by
        apply Nat.mul_pos (f64ofNat_n_pos _) (roundF64_den_pos _)
        rw [hmod]
        have : 0 < ms := by omega
        positivity
      have hBn : 0 < (roundF64 ((f64ofNat (ms % 1000 * 1000000)).div
          (f64ofNat 1000000000))).n := roundF64_n_pos hdivn hdivd
      have hB : 0 < (roundF64 ((f64ofNat (ms % 1000 * 1000000)).div
          (f64ofNat 1000000000))).val :=
        (Frac.val_pos_iff hBd).mpr hBn
      have hA := Frac.val_nonneg (f64ofNat (ms / 1000))
      linarith
  exact roundF64_n_pos ((Frac.val_pos_iff hsum_d).mp hval) hsum_d


theorem lookupId_removeId (id : String) (l : List (String × Nat)) :
    lookupId id (removeId id l) = none := by
  induction l with
  | nil => rfl
  | cons p rest ih =>
    by_cases hp : p.1 = id
    · simp [removeId, hp, ih]
    · simp [removeId, lookupId, hp, ih]

theorem coarseOf_append (l₁ l₂ : List Event) :
    coarseOf (l₁ ++ l₂) = coarseOf l₁ ++ coarseOf l₂ :=
  List.filterMap_append l₁ l₂ _

theorem detailedOf_append (l₁ l₂ : List Event) :
    detailedOf (l₁ ++ l₂) = detailedOf l₁ ++ detailedOf l₂ :=
  List.filter_append l₁ l₂

theorem coarseOf_detailedStep (t a b c d : Nat) :
    coarseOf (detailedStep t a b c d).1 = [] := by
  by_cases h5 : 500 ≤ d - a
  · by_cases h0 : 0 < (elapsedSecsF64 (d - a)).n
    · by_cases ht : 0 < t <;> simp [detailedStep, h5, h0, ht, coarseOf]
    · simp [detailedStep, h5, h0, coarseOf]
  · simp [detailedStep, h5, coarseOf]

theorem detailedOf_coarseStep (t lp dl : Nat) :
    detailedOf (coarseStep t lp dl).1 = [] := by
  by_cases ht : 0 < t
  · by_cases hc : lp + 1 ≤ percentF64 dl t ∨ percentF64 dl t = 100 <;>
      simp [coarseStep, ht, hc, detailedOf]
  · simp [coarseStep, ht, detailedOf]

theorem processChunk_downloaded (t : Nat) (st : TState) (sz now : Nat) :
    (processChunk t st sz now).1.downloaded = st.downloaded + sz := rfl

theorem processChunk_lastProgress (t : Nat) (st : TState) (sz now : Nat) :
    (processChunk t st sz now).1.lastProgress =
      (coarseStep t st.lastProgress (st.downloaded + sz)).2 := rfl

theorem processChunk_coarseOf (t : Nat) (st : TState) (sz now : Nat) :
    coarseOf (processChunk t st sz now).2 =
      coarseOf (coarseStep t st.lastProgress (st.downloaded + sz)).1 := by
  show coarseOf (_ ++ _) = _
  rw [coarseOf_append, coarseOf_detailedStep]
  rfl

theorem coarseStep_emit {t lp dl : Nat} (ht : 0 < t)
    (hc : lp + 1 ≤ percentF64 dl t ∨ percentF64 dl t = 100) :
    coarseStep t lp dl =
      ([Event.coarse (percentF64 dl t)], percentF64 dl t) := by
  simp [coarseStep, ht, hc]

theorem coarseStep_skip {t lp dl : Nat}
    (hc : ¬ (lp + 1 ≤ percentF64 dl t ∨ percentF64 dl t = 100)) :
    coarseStep t lp dl = ([], lp) := by
  by_cases ht : 0 < t <;> simp [coarseStep, ht, hc]

theorem coarseStep_zero (lp dl : Nat) : coarseStep 0 lp dl = ([], lp) := rfl

theorem runLoop_closed_cons (t : Nat) (st : TState) (n : Nat) (e : LoopEvent)
    (rest : List LoopIter) :
    runLoop t st (⟨CancelObs.closed, n, e⟩ :: rest) =
      runLoop t st (⟨CancelObs.empty, n, e⟩ :: rest) := by
  cases e <;> rfl

theorem runLoop_coarse_total_zero (st : TState) (iters : List LoopIter) :
    coarseOf (runLoop 0 st iters).events = [] := by
  induction iters generalizing st with
  | nil => rfl
  | cons it rest ih =>
    obtain ⟨c, n, ev⟩ := it
    cases c with
    | signaled => rfl
    | closed =>
      rw [runLoop_closed_cons]
      cases ev with
      | tick => exact ih st
      | ended => rfl
      | errItem m => rfl
      | chunk sz w =>
        cases w with
        | false => rfl
        | true =>
          show coarseOf (_ ++ _) = _
          rw [coarseOf_append, processChunk_coarseOf, coarseStep_zero, ih]
          rfl
    | empty =>
      cases ev with
      | tick => exact ih st
      | ended => rfl
      | errItem m => rfl
      | chunk sz w =>
        cases w with
        | false => rfl
        | true =>
          show coarseOf (_ ++ _) = _
          rw [coarseOf_append, processChunk_coarseOf, coarseStep_zero, ih]
          rfl

theorem coarseStep_not_pos {t : Nat} (lp dl : Nat) (ht : ¬ 0 < t) :
    coarseStep t lp dl = ([], lp) := by
  simp [coarseStep, ht]

theorem runLoop_signaled (t : Nat) (st : TState) (n : Nat) (e : LoopEvent)
    (rest : List LoopIter) :
    runLoop t st (⟨CancelObs.signaled, n, e⟩ :: rest) =
      ⟨TOutcome.cancelled, [], st, true⟩ := rfl

theorem runLoop_tick (t : Nat) (st : TState) (n : Nat)
    (rest : List LoopIter) :
    runLoop t st (⟨CancelObs.empty, n, LoopEvent.tick⟩ :: rest) =
      runLoop t st rest := rfl

theorem runLoop_ended (t : Nat) (st : TState) (n : Nat)
    (rest : List LoopIter) :
    runLoop t st (⟨CancelObs.empty, n, LoopEvent.ended⟩ :: rest) =
      ⟨TOutcome.completed, [], st, true⟩ := rfl

theorem runLoop_errItem (t : Nat) (st : TState) (n : Nat) (m : String)
    (rest : List LoopIter) :
    runLoop t st (⟨CancelObs.empty, n, LoopEvent.errItem m⟩ :: rest) =
      ⟨TOutcome.failed ("Failed to read chunk: " ++ m), [], st, true⟩ := rfl

theorem runLoop_chunk_false (t : Nat) (st : TState) (n sz : Nat)
    (rest : List LoopIter) :
    runLoop t st (⟨CancelObs.empty, n, LoopEvent.chunk sz false⟩ :: rest) =
      ⟨TOutcome.failed "Failed to write to file", [], st, false⟩ := rfl

theorem runLoop_chunk_true (t : Nat) (st : TState) (n sz : Nat)
    (rest : List LoopIter) :
    runLoop t st (⟨CancelObs.empty, n, LoopEvent.chunk sz true⟩ :: rest) =
      ⟨(runLoop t (processChunk t st sz n).1 rest).outcome,
        (processChunk t st sz n).2 ++
          (runLoop t (processChunk t st sz n).1 rest).events,
        (runLoop t (processChunk t st sz n).1 rest).finalState,
        (runLoop t (processChunk t st sz n).1 rest).removed⟩ := rfl

theorem getLast?_append_some {l₁ l₂ : List Nat} {a : Nat}
    (h : l₂.getLast? = some a) : (l₁ ++ l₂).getLast? = some a := by
  have hne : l₂ ≠ [] := by
    intro he
    rw [he] at h
    exact Option.noConfusion h
  rw [List.getLast?_append_of_ne_nil l₁ hne]
  exact h

theorem runLoop_coarse_chain (t : Nat) (ht : 0 < t) (st : TState)
    (iters : List LoopIter)
    (hin : st.lastProgress ≤ percentF64 st.downloaded t) :
    List.Chain' (· ≤ ·)
      (st.lastProgress :: coarseOf (runLoop t st iters).events) := by
  induction iters generalizing st with
  | nil => simp [runLoop, coarseOf]
  | cons it rest ih =>
    obtain ⟨c, n, ev⟩ := it
    cases c with
    | signaled => simp [runLoop_signaled, coarseOf]
    | closed =>
      rw [runLoop_closed_cons]
      cases ev with
      | tick => rw [runLoop_tick]; exact ih st hin
      | ended => simp [runLoop_ended, coarseOf]
      | errItem m => simp [runLoop_errItem, coarseOf]
      | chunk sz w =>
        cases w with
        | false => simp [runLoop_chunk_false, coarseOf]
        | true =>
          rw [runLoop_chunk_true]
          show List.Chain' (· ≤ ·) (st.lastProgress :: coarseOf (_ ++ _))
          rw [coarseOf_append, processChunk_coarseOf]
          have hmono : percentF64 st.downloaded t ≤
              percentF64 (st.downloaded + sz) t :=
            percentF64_mono ht (Nat.le_add_right _ _)
          by_cases hc : st.lastProgress + 1 ≤ percentF64 (st.downloaded + sz) t ∨
              percentF64 (st.downloaded + sz) t = 100
          · rw [coarseStep_emit ht hc]
            have hinv : (processChunk t st sz n).1.lastProgress ≤
                percentF64 (processChunk t st sz n).1.downloaded t := by
              rw [processChunk_lastProgress, processChunk_downloaded,
                coarseStep_emit ht hc]
            have h2 := ih (processChunk t st sz n).1 hinv
            rw [processChunk_lastProgress, coarseStep_emit ht hc] at h2
            simp only [coarseOf, List.filterMap_cons, List.filterMap_nil]
            exact List.chain'_cons.mpr ⟨hin.trans hmono, h2⟩
          · rw [coarseStep_skip hc]
            have hinv : (processChunk t st sz n).1.lastProgress ≤
                percentF64 (processChunk t st sz n).1.downloaded t := by
              rw [processChunk_lastProgress, processChunk_downloaded,
                coarseStep_skip hc]
              exact hin.trans hmono
            have h2 := ih (processChunk t st sz n).1 hinv
            rw [processChunk_lastProgress, coarseStep_skip hc] at h2
            simpa [coarseOf] using h2
    | empty =>
      cases ev with
      | tick => rw [runLoop_tick]; exact ih st hin
      | ended => simp [runLoop_ended, coarseOf]
      | errItem m => simp [runLoop_errItem, coarseOf]
      | chunk sz w =>
        cases w with
        | false => simp [runLoop_chunk_false, coarseOf]
        | true =>
          rw [runLoop_chunk_true]
          show List.Chain' (· ≤ ·) (st.lastProgress :: coarseOf (_ ++ _))
          rw [coarseOf_append, processChunk_coarseOf]
          have hmono : percentF64 st.downloaded t ≤
              percentF64 (st.downloaded + sz) t :=
            percentF64_mono ht (Nat.le_add_right _ _)
          by_cases hc : st.lastProgress + 1 ≤ percentF64 (st.downloaded + sz) t ∨
              percentF64 (st.downloaded + sz) t = 100
          · rw [coarseStep_emit ht hc]
            have hinv : (processChunk t st sz n).1.lastProgress ≤
                percentF64 (processChunk t st sz n).1.downloaded t := by
              rw [processChunk_lastProgress, processChunk_downloaded,
                coarseStep_emit ht hc]
            have h2 := ih (processChunk t st sz n).1 hinv
            rw [processChunk_lastProgress, coarseStep_emit ht hc] at h2
            simp only [coarseOf, List.filterMap_cons, List.filterMap_nil]
            exact List.chain'_cons.mpr ⟨hin.trans hmono, h2⟩
          · rw [coarseStep_skip hc]
            have hinv : (processChunk t st sz n).1.lastProgress ≤
                percentF64 (processChunk t st sz n).1.downloaded t := by
              rw [processChunk_lastProgress, processChunk_downloaded,
                coarseStep_skip hc]
              exact hin.trans hmono
            have h2 := ih (processChunk t st sz n).1 hinv
            rw [processChunk_lastProgress, coarseStep_skip hc] at h2
            simpa [coarseOf] using h2

theorem runLoop_chunk_true_outcome (t : Nat) (st : TState) (n sz : Nat)
    (rest : List LoopIter) :
    (runLoop t st (⟨CancelObs.empty, n, LoopEvent.chunk sz true⟩ :: rest)).outcome =
      (runLoop t (processChunk t st sz n).1 rest).outcome := rfl

theorem runLoop_chunk_true_events (t : Nat) (st : TState) (n sz : Nat)
    (rest : List LoopIter) :
    (runLoop t st (⟨CancelObs.empty, n, LoopEvent.chunk sz true⟩ :: rest)).events =
      (processChunk t st sz n).2 ++
        (runLoop t (processChunk t st sz n).1 rest).events := rfl

theorem runLoop_chunk_true_final (t : Nat) (st : TState) (n sz : Nat)
    (rest : List LoopIter) :
    (runLoop t st (⟨CancelObs.empty, n, LoopEvent.chunk sz true⟩ :: rest)).finalState =
      (runLoop t (processChunk t st sz n).1 rest).finalState := rfl

theorem runLoop_coarse_last (t : Nat) (st : TState) (iters : List LoopIter)
    (ht : 0 < t)
    (hc : (runLoop t st iters).outcome = TOutcome.completed)
    (hd : (runLoop t st iters).finalState.downloaded = t) :
    (coarseOf (runLoop t st iters).events).getLast? = some 100 ∨
      (coarseOf (runLoop t st iters).events = [] ∧ st.downloaded = t) := by
  induction iters generalizing st with
  | nil => exact absurd hc (by simp [runLoop])
  | cons it rest ih =>
    obtain ⟨c, n, ev⟩ := it
    cases c with
    | signaled => rw [runLoop_signaled] at hc; exact absurd hc (by simp)
    | closed =>
      rw [runLoop_closed_cons] at hc hd ⊢
      cases ev with
      | tick => rw [runLoop_tick] at hc hd ⊢; exact ih st hc hd
      | ended =>
        rw [runLoop_ended] at hc hd ⊢
        exact Or.inr ⟨rfl, hd⟩
      | errItem m => rw [runLoop_errItem] at hc; exact absurd hc (by simp)
      | chunk sz w =>
        cases w with
        | false => rw [runLoop_chunk_false] at hc; exact absurd hc (by simp)
        | true =>
          rw [runLoop_chunk_true_outcome] at hc
          rw [runLoop_chunk_true_final] at hd
          rw [runLoop_chunk_true_events]
          rcases ih (processChunk t st sz n).1 hc hd with h100 | ⟨hnil, hdl⟩
          · left
            rw [coarseOf_append]
            exact getLast?_append_some h100
          · left
            rw [coarseOf_append, hnil, List.append_nil, processChunk_coarseOf]
            have hdl' : st.downloaded + sz = t := by
              rwa [processChunk_downloaded] at hdl
            have hp : percentF64 (st.downloaded + sz) t = 100 := by
              rw [hdl']
              exact percentF64_self ht
            rw [coarseStep_emit ht (Or.inr hp), hp]
            rfl
    | empty =>
      cases ev with
      | tick => rw [runLoop_tick] at hc hd ⊢; exact ih st hc hd
      | ended =>
        rw [runLoop_ended] at hc hd ⊢
        exact Or.inr ⟨rfl, hd⟩
      | errItem m => rw [runLoop_errItem] at hc; exact absurd hc (by simp)
      | chunk sz w =>
        cases w with
        | false => rw [runLoop_chunk_false] at hc; exact absurd hc (by simp)
        | true =>
          rw [runLoop_chunk_true_outcome] at hc
          rw [runLoop_chunk_true_final] at hd
          rw [runLoop_chunk_true_events]
          rcases ih (processChunk t st sz n).1 hc hd with h100 | ⟨hnil, hdl⟩
          · left
            rw [coarseOf_append]
            exact getLast?_append_some h100
          · left
            rw [coarseOf_append, hnil, List.append_nil, processChunk_coarseOf]
            have hdl' : st.downloaded + sz = t := by
              rwa [processChunk_downloaded] at hdl
            have hp : percentF64 (st.downloaded + sz) t = 100 := by
              rw [hdl']
              exact percentF64_self ht
            rw [coarseStep_emit ht (Or.inr hp), hp]
            rfl

theorem runLoop_map_cons_empty (t : Nat) (st : TState) (n : Nat)
    (ev : LoopEvent) (rest : List LoopIter)
    (ih : ∀ st : TState, runLoop t st (rest.map closed_to_empty) =
      runLoop t st rest) :
    runLoop t st (⟨CancelObs.empty, n, ev⟩ :: rest.map closed_to_empty) =
      runLoop t st (⟨CancelObs.empty, n, ev⟩ :: rest) := by
  cases ev with
  | tick => rw [runLoop_tick, runLoop_tick]; exact ih st
  | ended => rfl
  | errItem m => rfl
  | chunk sz w =>
    cases w with
    | false => rfl
    | true => rw [runLoop_chunk_true, runLoop_chunk_true, ih]

/-! ## Claim theorems -/

/-- Claim C3: for every id, `cancel_download` removes the registry entry
for the id when one is present, signals its cancellation handle, and
returns `true`; when no entry is present it returns `false` and changes
nothing — in particular a second `cancel_download` immediately after a
successful one returns `false`. -/
theorem cancel_download_spec (id : String) (s : RegState) :
    (∀ h, lookupId id s.entries = some h →
      cancel_download id s =
        (true, ⟨removeId id s.entries, h :: s.signaled, s.next⟩) ∧
      (cancel_download id (cancel_download id s).2).1 = false) ∧
    (lookupId id s.entries = none → cancel_download id s = (false, s)) := by
  constructor
  · intro h hl
    have h1 : cancel_download id s =
        (true, ⟨removeId id s.entries, h :: s.signaled, s.next⟩) := by
      unfold cancel_download
      rw [hl]
    refine ⟨h1, ?_⟩
    rw [h1]
    unfold cancel_download
    simp [lookupId_removeId]
  · intro hl
    unfold cancel_download
    rw [hl]

/-- Witness for C3 at a concrete registry: cancelling a present id
succeeds (removing and signaling), cancelling it again fails, and
cancelling an absent id fails without change. -/
theorem cancel_download_spec_witness :
    cancel_download "a" ⟨[("a", 5)], [], 6⟩ = (true, ⟨[], [5], 6⟩) ∧
    (cancel_download "a" (cancel_download "a" ⟨[("a", 5)], [], 6⟩).2).1 =
      false ∧
    cancel_download "b" ⟨[("a", 5)], [], 6⟩ = (false, ⟨[("a", 5)], [], 6⟩) := by
  obtain ⟨ha, hb⟩ := (cancel_download_spec "a" ⟨[("a", 5)], [], 6⟩).1 5 rfl
  exact ⟨ha, hb, (cancel_download_spec "b" ⟨[("a", 5)], [], 6⟩).2 rfl⟩

/-- Claim C7: a supplied `auth_token` parameter always becomes the
`X-Auth-Token` value, even when the URL query also carries `auth_token`;
with no parameter, a query `auth_token` value is used; with neither, no
auth header is set. -/
theorem auth_token_precedence (t : String) (qp : List (String × String)) :
    select_auth_token (some t) qp = some t ∧
    ((∃ v, ("auth_token", v) ∈ qp) →
      ∃ v, ("auth_token", v) ∈ qp ∧ select_auth_token none qp = some v) ∧
    ((∀ v, ("auth_token", v) ∉ qp) → select_auth_token none qp = none) := by
  refine ⟨rfl, ?_, ?_⟩
  · rintro ⟨v, hv⟩
    have hsome : (qp.find? fun p => p.1 == "auth_token").isSome := by
      rw [List.find?_isSome]
      exact ⟨("auth_token", v), hv, by simp⟩
    obtain ⟨q, hq⟩ := Option.isSome_iff_exists.mp hsome
    have hmem := List.mem_of_find?_eq_some hq
    have hkey : q.1 = "auth_token" := by
      have := List.find?_some hq
      simpa using this
    obtain ⟨a, b⟩ := q
    simp only at hkey
    subst hkey
    exact ⟨b, hmem, by simp [select_auth_token, hq]⟩
  · intro hnone
    have hfind : qp.find? (fun p => p.1 == "auth_token") = none := by
      rw [List.find?_eq_none]
      intro x hx
      simp only [beq_iff_eq]
      intro hk
      obtain ⟨a, b⟩ := x
      simp only at hk
      subst hk
      exact hnone b hx
    simp [select_auth_token, hfind]

/-- Witness for C7 at concrete inputs: parameter beats query, query is
used when no parameter is given, and nothing is set otherwise. -/
theorem auth_token_precedence_witness :
    select_auth_token (some "param") [("auth_token", "q")] = some "param" ∧
    (∃ v, ("auth_token", v) ∈ [("auth_token", "q")] ∧
      select_auth_token none [("auth_token", "q")] = some v) ∧
    select_auth_token none [("other", "x")] = none := by
  refine ⟨(auth_token_precedence "param" [("auth_token", "q")]).1,
    (auth_token_precedence "param" [("auth_token", "q")]).2.1
      ⟨"q", by simp⟩,
    (auth_token_precedence "param" [("other", "x")]).2.2 ?_⟩
  intro v hv
  simp [Prod.ext_iff] at hv

/-- Claim C8: an absolute destination is returned unchanged with no
directory creation; a relative one is resolved against the downloads
directory (environment error when it is unknown), with parent directories
created first (their creation failure surfacing as an I/O error that
aborts resolution). -/
theorem resolve_save_path_spec (p d : String) (dir : Option String) :
    resolve_save_path p true dir true = .ok (p, false) ∧
    resolve_save_path p true dir false = .ok (p, false) ∧
    resolve_save_path p false none true = .error .environmentError ∧
    resolve_save_path p false none false = .error .environmentError ∧
    resolve_save_path p false (some d) true = .ok (d ++ "/" ++ p, true) ∧
    resolve_save_path p false (some d) false = .error .ioError :=
  ⟨rfl, rfl, rfl, rfl, rfl, rfl⟩

/-- Claim C10: a closed cancellation channel without a signal is treated
exactly like an open channel with no message: replacing every
closed-channel observation of a schedule by an empty one leaves the
transfer's outcome, events, final state and deregistration unchanged, so
the transfer continues streaming and can end in any normal outcome. -/
theorem transfer_ignores_closed_channel (t : Nat) (st : TState)
    (iters : List LoopIter) :
    runLoop t st (iters.map closed_to_empty) = runLoop t st iters := by
  induction iters generalizing st with
  | nil => rfl
  | cons it rest ih =>
    obtain ⟨c, n, ev⟩ := it
    cases c with
    | signaled => rfl
    | empty =>
      exact runLoop_map_cons_empty t st n ev rest fun s => ih s
    | closed =>
      rw [runLoop_closed_cons]
      exact runLoop_map_cons_empty t st n ev rest fun s => ih s

theorem detailedOf_detailedStep (t a b c d : Nat) :
    detailedOf (detailedStep t a b c d).1 = (detailedStep t a b c d).1 := by
  by_cases h5 : 500 ≤ d - a
  · by_cases h0 : 0 < (elapsedSecsF64 (d - a)).n <;>
      simp [detailedStep, h5, h0, detailedOf]
  · simp [detailedStep, h5, detailedOf]

theorem processChunk_detailedOf (t : Nat) (st : TState) (sz now : Nat) :
    detailedOf (processChunk t st sz now).2 =
      (detailedStep t st.lastUpdateTime st.lastDownloaded
        (st.downloaded + sz) now).1 := by
  show detailedOf (_ ++ _) = _
  rw [detailedOf_append, detailedOf_coarseStep, detailedOf_detailedStep,
    List.append_nil]

theorem processChunk_lastUpdateTime (t : Nat) (st : TState) (sz now : Nat) :
    (processChunk t st sz now).1.lastUpdateTime =
      (detailedStep t st.lastUpdateTime st.lastDownloaded
        (st.downloaded + sz) now).2.1 := rfl

theorem processChunk_lastDownloaded (t : Nat) (st : TState) (sz now : Nat) :
    (processChunk t st sz now).1.lastDownloaded =
      (detailedStep t st.lastUpdateTime st.lastDownloaded
        (st.downloaded + sz) now).2.2 := rfl

theorem detailedStep_fire {t a b c d : Nat} (h5 : 500 ≤ d - a) :
    detailedStep t a b c d =
      ([Event.detailed (if 0 < t then percentF64 c t else 0) c t
          (speedF64 (c - b) (d - a))
          (if 0 < t ∧ 0 < speedF64 (c - b) (d - a) then
            some (sub64 t c / speedF64 (c - b) (d - a)) else none)],
        d, c) := by
  have h0 : 0 < (elapsedSecsF64 (d - a)).n := elapsedSecsF64_n_pos h5
  simp [detailedStep, h5, h0]

theorem detailedStep_hold {t a b c d : Nat} (h5 : ¬ 500 ≤ d - a) :
    detailedStep t a b c d = ([], a, b) := by
  simp [detailedStep, h5]

/-- Claim C4 counterexample: the source computes the percentage in `f64`
(line 261), which at 29 of 100 bytes truncates to 28, while the claim
prescribes the exact floor, 29; so at 29 of 100 bytes with 28 already
emitted the claim demands an emission, but the program emits nothing and
leaves the last emitted percentage at 28. -/
theorem coarse_floor_formula_counterexample :
    28 + 1 ≤ 29 * 100 / 100 ∧
    percentF64 29 100 = 28 ∧
    coarseOf (processChunk 100 ⟨0, 28, 0, 0⟩ 29 0).2 = [] ∧
    (processChunk 100 ⟨0, 28, 0, 0⟩ 29 0).1.lastProgress = 28 :=
  ⟨by decide, by decide, rfl, rfl⟩

/-- Claim C4 (amended): with a known total size, processing a chunk emits
a coarse event exactly when the `f64` percentage `percentF64 downloaded
totalSize` — which can be one below the claim's exact floor — gained a
full point over the last emitted value or equals 100, and the last
emitted percentage is then updated to it; with total size 0 a transfer
never emits a coarse event. -/
theorem coarse_progress_emission_amended (t : Nat) (st : TState)
    (sz now : Nat) (ht : 0 < t) :
    (coarseOf (processChunk t st sz now).2 =
      if st.lastProgress + 1 ≤ percentF64 (st.downloaded + sz) t ∨
          percentF64 (st.downloaded + sz) t = 100 then
        [percentF64 (st.downloaded + sz) t]
      else []) ∧
    ((processChunk t st sz now).1.lastProgress =
      if st.lastProgress + 1 ≤ percentF64 (st.downloaded + sz) t ∨
          percentF64 (st.downloaded + sz) t = 100 then
        percentF64 (st.downloaded + sz) t
      else st.lastProgress) ∧
    (∀ (st₀ : TState) (iters : List LoopIter),
      coarseOf (runLoop 0 st₀ iters).events = []) := by
  refine ⟨?_, ?_, fun st₀ iters => runLoop_coarse_total_zero st₀ iters⟩
  · rw [processChunk_coarseOf]
    by_cases hc : st.lastProgress + 1 ≤ percentF64 (st.downloaded + sz) t ∨
        percentF64 (st.downloaded + sz) t = 100
    · rw [coarseStep_emit ht hc, if_pos hc]
      rfl
    · rw [coarseStep_skip hc, if_neg hc]
      rfl
  · rw [processChunk_lastProgress]
    by_cases hc : st.lastProgress + 1 ≤ percentF64 (st.downloaded + sz) t ∨
        percentF64 (st.downloaded + sz) t = 100
    · rw [coarseStep_emit ht hc, if_pos hc]
    · rw [coarseStep_skip hc, if_neg hc]

/-- Witness for C4 (amended): with total 10 and a 5-byte chunk (an exact
`f64` case) the percentage 50 is emitted and recorded; with total 0
nothing coarse is emitted. -/
theorem coarse_progress_emission_amended_witness :
    coarseOf (processChunk 10 initTState 5 0).2 = [50] ∧
    (processChunk 10 initTState 5 0).1.lastProgress = 50 ∧
    coarseOf (runLoop 0 initTState
      [⟨CancelObs.empty, 0, LoopEvent.chunk 5 true⟩]).events = [] := by
  have h := coarse_progress_emission_amended 10 initTState 5 0 (by decide)
  refine ⟨?_, ?_,
    h.2.2 initTState [⟨CancelObs.empty, 0, LoopEvent.chunk 5 true⟩]⟩
  · rw [h.1]
    decide
  · rw [h.2.1]
    decide

/-- Claim C9 counterexample: the `f64` speed differs from the exact
byte-per-second quotient — 535 bytes over 535 ms give 999 B/s where the
exact ratio is 1000 — and when the stream has delivered more bytes than
the declared total size the `u64` subtraction inside the ETA wraps: at
600 of 500 bytes with speed 600 B/s the emitted ETA is
`(2^64 - 100) / 600` seconds, not the claim's
`(totalSize - downloaded) / speed`. -/
theorem detailed_speed_eta_counterexample :
    speedF64 535 535 = 999 ∧
    535 * 1000 / 535 = 1000 ∧
    detailedOf (processChunk 500 ⟨100, 0, 0, 0⟩ 500 1000).2 =
      [Event.detailed 120 600 500 600 (some ((2 ^ 64 - 100) / 600))] ∧
    (500 - 600) / 600 = 0 :=
  ⟨by decide, by decide, by decide, by decide⟩

/-- Claim C9 (amended): a detailed event is emitted only once at least
500 ms have elapsed since the sample-window anchor, and is skipped when
the `f64` elapsed seconds is zero; at emission its speed is the `f64`
quotient of the bytes since the last sample by the elapsed seconds
(truncated to `u64`, occasionally one below the exact ratio), its ETA is
the wrapping `u64` difference `totalSize - downloaded` divided by that
speed exactly when the total size and the speed are positive (and omitted
otherwise; the difference equals the claim's only while
`downloaded ≤ totalSize`), and the window anchor moves to the current
time and byte count; below the gate nothing is emitted and the anchor
stays. -/
theorem detailed_progress_amended (t : Nat) (st : TState) (sz now : Nat) :
    (detailedOf (processChunk t st sz now).2 ≠ [] →
      500 ≤ now - st.lastUpdateTime) ∧
    ((elapsedSecsF64 (now - st.lastUpdateTime)).n = 0 →
      detailedOf (processChunk t st sz now).2 = []) ∧
    (500 ≤ now - st.lastUpdateTime →
      detailedOf (processChunk t st sz now).2 =
        [Event.detailed
          (if 0 < t then percentF64 (st.downloaded + sz) t else 0)
          (st.downloaded + sz) t
          (speedF64 (st.downloaded + sz - st.lastDownloaded)
            (now - st.lastUpdateTime))
          (if 0 < t ∧ 0 < speedF64 (st.downloaded + sz - st.lastDownloaded)
              (now - st.lastUpdateTime) then
            some (sub64 t (st.downloaded + sz) /
              speedF64 (st.downloaded + sz - st.lastDownloaded)
                (now - st.lastUpdateTime))
          else none)] ∧
      (processChunk t st sz now).1.lastUpdateTime = now ∧
      (processChunk t st sz now).1.lastDownloaded = st.downloaded + sz) ∧
    (now - st.lastUpdateTime < 500 →
      detailedOf (processChunk t st sz now).2 = [] ∧
      (processChunk t st sz now).1.lastUpdateTime = st.lastUpdateTime ∧
      (processChunk t st sz now).1.lastDownloaded = st.lastDownloaded) := by
  refine ⟨?_, ?_, ?_, ?_⟩
  · intro hne
    by_contra hlt
    apply hne
    rw [processChunk_detailedOf, detailedStep_hold hlt]
  · intro h0
    by_cases h5 : 500 ≤ now - st.lastUpdateTime
    · have := elapsedSecsF64_n_pos h5
      omega
    · rw [processChunk_detailedOf, detailedStep_hold h5]
  · intro h5
    refine ⟨?_, ?_, ?_⟩
    · rw [processChunk_detailedOf, detailedStep_fire h5]
    · rw [processChunk_lastUpdateTime, detailedStep_fire h5]
    · rw [processChunk_lastDownloaded, detailedStep_fire h5]
  · intro hlt
    have h5 : ¬ 500 ≤ now - st.lastUpdateTime := by omega
    refine ⟨?_, ?_, ?_⟩
    · rw [processChunk_detailedOf, detailedStep_hold h5]
    · rw [processChunk_lastUpdateTime, detailedStep_hold h5]
    · rw [processChunk_lastDownloaded, detailedStep_hold h5]

/-- Witness for C9 (amended): a 100-byte chunk arriving 600 ms into a
1000-byte transfer emits one detailed event with speed 166 B/s and ETA
5 s, and moves the window anchor. -/
theorem detailed_progress_amended_witness :
    detailedOf (processChunk 1000 initTState 100 600).2 =
      [Event.detailed 10 100 1000 166 (some 5)] ∧
    (processChunk 1000 initTState 100 600).1.lastUpdateTime = 600 ∧
    (processChunk 1000 initTState 100 600).1.lastDownloaded = 100 := by
  obtain ⟨h1, h2, h3⟩ :=
    (detailed_progress_amended 1000 initTState 100 600).2.2.1 (by decide)
  refine ⟨?_, h2, h3⟩
  rw [h1]
  decide

/-- Claim C5 counterexample, refuting the claimed equivalence in both
directions: (a) a transfer with total size 100 that receives its full
100-byte body and then observes a cancellation signal before end of
stream terminates as `cancelled`, yet its last coarse event is 100; (b) a
transfer with total size 100 whose stream ends cleanly after 50 bytes
completes successfully, yet its last coarse event is 50, not 100. -/
theorem coarse_last_100_iff_counterexample :
    (runLoop 100 initTState
      [⟨CancelObs.empty, 600, LoopEvent.chunk 100 true⟩,
        ⟨CancelObs.signaled, 700, LoopEvent.tick⟩]).outcome =
      TOutcome.cancelled ∧
    (coarseOf (runLoop 100 initTState
      [⟨CancelObs.empty, 600, LoopEvent.chunk 100 true⟩,
        ⟨CancelObs.signaled, 700, LoopEvent.tick⟩]).events).getLast? =
      some 100 ∧
    (runLoop 100 initTState
      [⟨CancelObs.empty, 0, LoopEvent.chunk 50 true⟩,
        ⟨CancelObs.empty, 0, LoopEvent.ended⟩]).outcome =
      TOutcome.completed ∧
    (coarseOf (runLoop 100 initTState
      [⟨CancelObs.empty, 0, LoopEvent.chunk 50 true⟩,
        ⟨CancelObs.empty, 0, LoopEvent.ended⟩]).events).getLast? =
      some 50 :=
  ⟨rfl, rfl, rfl, rfl⟩

/-- Claim C5 (amended): the coarse percentages of one transfer are
non-decreasing; a transfer that completes successfully with known
(non-zero) total size having received exactly `totalSize` bytes ends with
last coarse event 100; and a last coarse event of 100 implies the total
size was known (non-zero).  The claimed equivalence with successful
completion fails in both directions, per the counterexample: cancellation
observed after the full body still ends at 100, and a clean stream end
short of `totalSize` completes successfully with a last event below
100. -/
theorem coarse_progress_sequence_amended (t : Nat) (iters : List LoopIter) :
    List.Chain' (· ≤ ·) (coarseOf (runLoop t initTState iters).events) ∧
    ((runLoop t initTState iters).outcome = TOutcome.completed → 0 < t →
      (runLoop t initTState iters).finalState.downloaded = t →
      (coarseOf (runLoop t initTState iters).events).getLast? = some 100) ∧
    ((coarseOf (runLoop t initTState iters).events).getLast? = some 100 →
      0 < t) := by
  refine ⟨?_, ?_, ?_⟩
  · by_cases ht : 0 < t
    · exact (runLoop_coarse_chain t ht initTState iters
        (by simp [initTState])).tail
    · have ht0 : t = 0 := by omega
      subst ht0
      rw [runLoop_coarse_total_zero]
      exact List.chain'_nil
  · intro hc ht hd
    rcases runLoop_coarse_last t initTState iters ht hc hd with h | ⟨_, h0⟩
    · exact h
    · exfalso
      have h0' : (0 : Nat) = t := h0
      omega
  · intro h100
    by_contra ht
    have ht0 : t = 0 := by omega
    subst ht0
    rw [runLoop_coarse_total_zero] at h100
    exact Option.noConfusion h100

/-- Witness for C5 (amended): a transfer of 100 bytes in chunks of 40 and
60 that then completes has a non-decreasing coarse sequence ending in
100, with the total size positive. -/
theorem coarse_progress_sequence_amended_witness :
    List.Chain' (· ≤ ·) (coarseOf (runLoop 100 initTState
      [⟨CancelObs.empty, 0, LoopEvent.chunk 40 true⟩,
        ⟨CancelObs.empty, 0, LoopEvent.chunk 60 true⟩,
        ⟨CancelObs.empty, 0, LoopEvent.ended⟩]).events) ∧
    (coarseOf (runLoop 100 initTState
      [⟨CancelObs.empty, 0, LoopEvent.chunk 40 true⟩,
        ⟨CancelObs.empty, 0, LoopEvent.chunk 60 true⟩,
        ⟨CancelObs.empty, 0, LoopEvent.ended⟩]).events).getLast? =
      some 100 ∧
    0 < 100 := by
  have h := coarse_progress_sequence_amended 100
    [⟨CancelObs.empty, 0, LoopEvent.chunk 40 true⟩,
      ⟨CancelObs.empty, 0, LoopEvent.chunk 60 true⟩,
      ⟨CancelObs.empty, 0, LoopEvent.ended⟩]
  have h100 := h.2.1 rfl (by decide) rfl
  exact ⟨h.1, h100, h.2.2 h100⟩

/-- Claim C1 (code bug): a download whose URL fails to parse returns its
error with the registry entry for its id still present (handle 0 of the
fresh registry), so a later cancel of the same id still returns `true` —
this terminal outcome does not deregister the id. -/
theorem download_file_leaks_registry_on_invalid_url :
    (download_file invalidUrlEnv emptyReg).result =
      some (Except.error "Invalid URL") ∧
    lookupId "dl-1" (download_file invalidUrlEnv emptyReg).reg.entries =
      some 0 ∧
    (cancel_download "dl-1" (download_file invalidUrlEnv emptyReg).reg).1 =
      true := ⟨rfl, rfl, rfl⟩

/-- Claim C2 (code bug): when HEAD yields no usable content length the
probe GET succeeds, and yet a second GET is issued and its response
(index 1), not the probe response (index 0), is the one streamed; the
claim expects exactly one GET whose response is streamed. -/
theorem download_file_second_get_issued :
    (download_file headNoLengthEnv emptyReg).getCount = 2 ∧
    (download_file headNoLengthEnv emptyReg).streamedGet = some 1 ∧
    (download_file headNoLengthEnv emptyReg).totalSize = 500 ∧
    (download_file headNoLengthEnv emptyReg).result = some (Except.ok ()) :=
  ⟨rfl, rfl, rfl, rfl⟩

/-- Claim C6 (code bug): the GET response streamed after a lengthless
HEAD (the second GET, index 1) is never status-checked — with that GET
returning 503 the download still writes 500 bytes and completes Ok —
whereas a non-success HEAD status is indeed not fatal by itself. -/
theorem streamed_get_status_unchecked :
    (failedStreamGetEnv.gets 1).map HttpResp.success = some false ∧
    (download_file failedStreamGetEnv emptyReg).streamedGet = some 1 ∧
    (download_file failedStreamGetEnv emptyReg).result =
      some (Except.ok ()) ∧
    (download_file failedStreamGetEnv emptyReg).downloadedBytes = 500 ∧
    failedHeadEnv.headResp.map HttpResp.success = some false ∧
    (download_file failedHeadEnv emptyReg).result = some (Except.ok ()) :=
  ⟨rfl, rfl, rfl, rfl, rfl, rfl⟩
